import Mathlib

/-!
Shallow embedding of the pmem/skpmem write-behind persistent key-value store.

Namespace Pmem models src/skpmem/async_pmem.py:
  class PersistentMemory with the threaded sync path (save_sync, load_sync,
  delete_sync, __getitem__, _daemon_worker, flush_sync) and the asyncio path
  (save, load, _async_db_writer, flush via write_queue.join).

Namespace Pmem.Sqlite2 models src/skpmem/sqlite_memory2.py:
  class PersistentMemory with history mode (save_memory, async_db_writer,
  load_memory).

Modelling conventions, each taken from the source:
  - Python values are PyVal; the pickle codec is an identity round-trip
    (the spec treats serialization as an opaque bytes transform).
  - A Python dict keyed by hash strings is an association list; dict
    assignment replaces the first matching pair, del removes it.
  - hashlib digests are abstracted as explicit function parameters
    (hash : String → String for _name_hash / name_hash, and
    vhash : PyVal → String for value_hash); every theorem holds for an
    arbitrary such function, in particular the sha512/sha256 digests.
  - queue.Queue() is constructed with maxsize 0, which in Python means an
    unbounded queue; put(timeout=1.0) raises Full only when the queue is
    bounded and still full, modelled by the queue_full test.
  - The daemon worker iteration (get, then execute, then task_done) is split
    into daemon_take (the get, which removes the item from the queue) and
    daemon_apply (the durable execute); between the two the operation is
    in flight: not in the queue and not yet durable.  A caught exception
    while executing one operation consumes it without applying it
    (modelled by the fault flag), exactly as the except-log-continue
    handlers in _daemon_worker / _async_db_writer / async_db_writer do.
  - The daemon read-request branch of _daemon_worker (sync_read_queue) is
    not modelled: load_sync reads the database directly and no modelled
    operation ever enqueues a read request.
-/

set_option maxRecDepth 8192

namespace Pmem

/-- A Python value as stored in the cache and (pickled) in the database.
PyVal.none is the Python None object. -/
inductive PyVal where
  | none
  | str (s : String)
  | int (n : Int)
deriving DecidableEq, Repr

/-- Python dict lookup on an association list keyed by hash strings. -/
def assocLookup (m : List (String × PyVal)) (k : String) : Option PyVal :=
  match m with
  | [] => Option.none
  | p :: rest => if p.fst = k then Option.some p.snd else assocLookup rest k

/-- Python dict assignment: replace the binding for k, or append it.
Also models REPLACE INTO on a table whose key column is a primary key. -/
def assocSet (m : List (String × PyVal)) (k : String) (v : PyVal) : List (String × PyVal) :=
  match m with
  | [] => [(k, v)]
  | p :: rest => if p.fst = k then (k, v) :: rest else p :: assocSet rest k v

/-- Python dict del / SQL DELETE FROM memory WHERE key = k. -/
def assocRemoveAll (m : List (String × PyVal)) (k : String) : List (String × PyVal) :=
  m.filter (fun p => decide (p.fst ≠ k))

/-- A pending operation on sync_write_queue: ('save', (hash_key, value)) or
('delete', hash_key). -/
inductive WriteOp where
  | save (hash_key : String) (val : PyVal)
  | del (hash_key : String)
deriving DecidableEq, Repr

/-- The threaded-path state of async_pmem.PersistentMemory: the key_error
flag, memory_store dict, deleted_keys set, the sync_write_queue (with the
maxsize it was constructed with; 0 means unbounded, as in queue.Queue()),
the operation the daemon has dequeued but not yet applied (in_flight), the
durable table (key PRIMARY KEY, value), and the daemon_running flag. -/
structure SyncState where
  key_error : Bool
  memory_store : List (String × PyVal)
  deleted_keys : List String
  queue_maxsize : Nat
  sync_write_queue : List WriteOp
  in_flight : Option WriteOp
  db : List (String × PyVal)
  daemon_running : Bool
deriving DecidableEq, Repr

/-- State right after __init__ plus _start_daemon_thread: empty cache, empty
tombstone set, queue.Queue() with maxsize 0 (unbounded), nothing in flight,
daemon running.  The durable table is empty for a fresh database file. -/
def initState (key_error : Bool) : SyncState :=
  { key_error := key_error
    memory_store := []
    deleted_keys := []
    queue_maxsize := 0
    sync_write_queue := []
    in_flight := Option.none
    db := []
    daemon_running := true }

/-- queue.Queue.put(timeout) raises Full exactly when the queue is bounded
(maxsize positive) and still holds maxsize items when the timeout expires. -/
def queue_full (s : SyncState) : Bool :=
  decide (s.queue_maxsize ≠ 0) && decide (s.queue_maxsize ≤ s.sync_write_queue.length)

/-- save_sync: store into memory_store and clear the tombstone (under the
lock), then enqueue ('save', (hash_key, val)); on queue.Full fall back to a
direct REPLACE INTO the database. -/
def save_sync (hash : String → String) (s : SyncState) (key : String) (val : PyVal) : SyncState :=
  let hk := hash key
  let s1 := { s with memory_store := assocSet s.memory_store hk val,
                     deleted_keys := s.deleted_keys.filter (fun x => decide (x ≠ hk)) }
  if queue_full s1 then
    { s1 with db := assocSet s1.db hk val }
  else
    { s1 with sync_write_queue := s1.sync_write_queue ++ [WriteOp.save hk val] }

/-- delete_sync: drop the cached value and mark the key tombstoned (under
the lock), then enqueue ('delete', hash_key); on queue.Full fall back to a
direct DELETE on the database. -/
def delete_sync (hash : String → String) (s : SyncState) (key : String) : SyncState :=
  let hk := hash key
  let s1 := { s with memory_store := assocRemoveAll s.memory_store hk,
                     deleted_keys := if hk ∈ s.deleted_keys then s.deleted_keys else hk :: s.deleted_keys }
  if queue_full s1 then
    { s1 with db := assocRemoveAll s1.db hk }
  else
    { s1 with sync_write_queue := s1.sync_write_queue ++ [WriteOp.del hk] }

/-- The body of load_sync with the returned value distinguished from the
caller-supplied default: Option.none stands for the branch that returns
defval (key tombstoned, or absent from both cache and database).  This is
exactly the distinction __getitem__ makes by passing a fresh sentinel
object as the default and testing identity against it: no stored value can
be the sentinel. -/
def load_sync_core (hash : String → String) (s : SyncState) (key : String) :
    Option PyVal × SyncState :=
  let hk := hash key
  if hk ∈ s.deleted_keys then (Option.none, s)
  else
    match assocLookup s.memory_store hk with
    | Option.some v => (Option.some v, s)
    | Option.none =>
      match assocLookup s.db hk with
      | Option.some v =>
        (Option.some v, { s with memory_store := assocSet s.memory_store hk v })
      | Option.none => (Option.none, s)

/-- load_sync(key, defval): tombstone check, then memory_store, then a
direct database read that populates the cache on a hit, else defval. -/
def load_sync (hash : String → String) (s : SyncState) (key : String) (defval : PyVal) :
    PyVal × SyncState :=
  match load_sync_core hash s key with
  | (Option.some v, t) => (v, t)
  | (Option.none, t) => (defval, t)

/-- Outcome of store[key]: a value, or a raised KeyError. -/
inductive GetResult where
  | ok (v : PyVal)
  | keyErr
deriving DecidableEq, Repr

/-- getitem models PersistentMemory.getitem via indexing: load_sync with a
fresh sentinel default; if the sentinel comes back, raise KeyError when the
key_error flag is set, else return the Python None value. -/
def getitem (hash : String → String) (s : SyncState) (key : String) :
    GetResult × SyncState :=
  match load_sync_core hash s key with
  | (Option.some v, t) => (GetResult.ok v, t)
  | (Option.none, t) =>
    (if s.key_error then GetResult.keyErr else GetResult.ok PyVal.none, t)

end Pmem

namespace Pmem

/-- One durable application of a dequeued operation by _daemon_worker:
REPLACE INTO for a save, DELETE for a delete. -/
def applyOp (db : List (String × PyVal)) : WriteOp → List (String × PyVal)
  | WriteOp.save hk v => assocSet db hk v
  | WriteOp.del hk => assocRemoveAll db hk

/-- Apply a list of dequeued operations in arrival order. -/
def applyOps (ops : List WriteOp) (db : List (String × PyVal)) : List (String × PyVal) :=
  ops.foldl applyOp db

/-- The get step of a daemon iteration: remove the head operation from
sync_write_queue and hold it in flight.  From this instant the queue no
longer reports the operation, although it has not reached the database. -/
def daemon_take (s : SyncState) : SyncState :=
  match s.in_flight, s.sync_write_queue with
  | Option.none, op :: rest => { s with in_flight := Option.some op, sync_write_queue := rest }
  | _, _ => s

/-- The execute step of a daemon iteration: apply the in-flight operation to
the database and release it.  When the db.execute raises (fault = true) the
exception is caught and logged by the worker, the operation is neither
retried nor re-queued, and the loop continues. -/
def daemon_apply (fault : Bool) (s : SyncState) : SyncState :=
  match s.in_flight with
  | Option.some op =>
    { s with in_flight := Option.none, db := if fault then s.db else applyOp s.db op }
  | Option.none => s

/-- One full iteration of the _daemon_worker while-loop body. -/
def daemon_step (fault : Bool) (s : SyncState) : SyncState :=
  daemon_apply fault (daemon_take s)

/-- The _daemon_worker while-loop, fuel iterations at most: it runs another
iteration exactly while daemon_running holds, whatever faults individual
operations raise, and exits the loop only when the flag is cleared. -/
def daemon_loop : Nat → List Bool → SyncState → SyncState
  | 0, _, s => s
  | Nat.succ n, faults, s =>
    if s.daemon_running then daemon_loop n faults.tail (daemon_step (faults.headD false) s)
    else s

/-- The operations that did not raise during their application, in order. -/
def keepUnfaulted {α : Type} : List Bool → List α → List α
  | _, [] => []
  | faults, op :: ops =>
    if faults.headD false then keepUnfaulted faults.tail ops
    else op :: keepUnfaulted faults.tail ops

/-- flush_sync returns without a warning exactly when it observes
sync_write_queue empty; the item the daemon holds in flight is invisible
to this test. -/
def flush_sync_drained (s : SyncState) : Bool :=
  s.sync_write_queue.isEmpty

/-- The count flush_sync reports in its timeout warning: the number of
operations still sitting in sync_write_queue (qsize). -/
def flush_sync_pending (s : SyncState) : Nat :=
  s.sync_write_queue.length

/-- The last write outcome among a list of operations for one hash key:
Option.some v if the last matching operation saves v, Option.none if it
deletes, else the fallback dflt (what the table already held). -/
def lastOpResult (ops : List WriteOp) (hk : String) (dflt : Option PyVal) : Option PyVal :=
  ops.foldl
    (fun acc op =>
      match op with
      | WriteOp.save k v => if k = hk then Option.some v else acc
      | WriteOp.del k => if k = hk then Option.none else acc)
    dflt

end Pmem

namespace Pmem

/-- The asyncio-path state of async_pmem.PersistentMemory: memory_store,
the asyncio write_queue of (hash_key, value) pairs (also unbounded), the
item _async_db_writer has gotten but not yet marked task_done, and the
durable table.  write_queue.join() returns when every put item has been
matched by a task_done call. -/
structure AsyncState where
  memory_store : List (String × PyVal)
  write_queue : List (String × PyVal)
  in_flight : Option (String × PyVal)
  db : List (String × PyVal)
deriving DecidableEq, Repr

/-- async save: store into memory_store, then put on write_queue. -/
def save (hash : String → String) (a : AsyncState) (key : String) (val : PyVal) : AsyncState :=
  let hk := hash key
  { a with memory_store := assocSet a.memory_store hk val,
           write_queue := a.write_queue ++ [(hk, val)] }

/-- async load: memory_store first, then the database (populating the cache
on a hit), else defval.  The asyncio path has no tombstone set. -/
def load (hash : String → String) (a : AsyncState) (key : String) (defval : PyVal) :
    PyVal × AsyncState :=
  let hk := hash key
  match assocLookup a.memory_store hk with
  | Option.some v => (v, a)
  | Option.none =>
    match assocLookup a.db hk with
    | Option.some v => (v, { a with memory_store := assocSet a.memory_store hk v })
    | Option.none => (defval, a)

/-- The get step of an _async_db_writer iteration. -/
def async_take (a : AsyncState) : AsyncState :=
  match a.in_flight, a.write_queue with
  | Option.none, p :: rest => { a with in_flight := Option.some p, write_queue := rest }
  | _, _ => a

/-- The execute step of an _async_db_writer iteration: REPLACE INTO unless
the execute raised (the exception is caught and logged); task_done is in a
finally block, so the item is released either way. -/
def async_apply (fault : Bool) (a : AsyncState) : AsyncState :=
  match a.in_flight with
  | Option.some p =>
    { a with in_flight := Option.none, db := if fault then a.db else assocSet a.db p.fst p.snd }
  | Option.none => a

/-- One full iteration of the _async_db_writer loop body. -/
def async_step (fault : Bool) (a : AsyncState) : AsyncState :=
  async_apply fault (async_take a)

/-- Iterated _async_db_writer loop. -/
def async_drain : Nat → List Bool → AsyncState → AsyncState
  | 0, _, a => a
  | Nat.succ n, faults, a => async_drain n faults.tail (async_step (faults.headD false) a)

/-- The condition under which write_queue.join() (the async flush) returns:
no pending item and no item gotten but not yet task_done. -/
def join_done (a : AsyncState) : Bool :=
  a.write_queue.isEmpty && a.in_flight.isNone

/-- Fold of load_sync calls (key, default) over a state, keeping only the
resulting state: the intermediate loads a caller performs between a delete
and a later load of the deleted key. -/
def load_seq (hash : String → String) (s : SyncState) (ks : List (String × PyVal)) : SyncState :=
  ks.foldl (fun t kd => (load_sync hash t kd.fst kd.snd).snd) s

/-- A concrete identity hash standing in for an arbitrary digest function in
concrete instances; every theorem is quantified over the hash function. -/
def idHash : String → String := fun s => s

/-- N successive save_sync calls on the same key, the flood of the
backpressure scenario. -/
def saveFlood : Nat → SyncState → SyncState
  | 0, s => s
  | Nat.succ n, s => saveFlood n (save_sync idHash s "k" (PyVal.int (Int.ofNat n)))

/-- A running store whose queue holds two pending saves: the state used to
exercise the worker with a fault on the first operation. -/
def twoOpState : SyncState :=
  { initState false with
      sync_write_queue := [WriteOp.save "a" (PyVal.str "x"), WriteOp.save "b" (PyVal.str "y")] }

end Pmem

namespace Pmem
namespace Sqlite2

/-- One row of the history-mode memory table:
(id AUTOINCREMENT, key_hash, date, value_hash, value). -/
structure Row where
  rowid : Nat
  key_hash : String
  date : Nat
  value_hash : String
  value : PyVal
deriving DecidableEq, Repr

/-- One item of sqlite_memory2 write_queue:
(key, key_hash, val, val_hash, date, history). -/
structure QOp where
  key : String
  key_hash : String
  val : PyVal
  val_hash : String
  date : Nat
  history : Bool
deriving DecidableEq, Repr

/-- The state of sqlite_memory2.PersistentMemory: memory_store dict, the
(unbounded) write_queue, the durable memory table, the next AUTOINCREMENT
id, and the history flag fixed at construction.  Dates are instants
(ISO-formatted timestamps compare chronologically as strings), modelled as
naturals. -/
structure HState where
  memory_store : List (String × PyVal)
  write_queue : List QOp
  table : List Row
  next_id : Nat
  history : Bool
deriving DecidableEq, Repr

/-- The rows of the table holding a given key_hash, in table order. -/
def rowsFor (t : List Row) (kh : String) : List Row :=
  t.filter (fun r => decide (r.key_hash = kh))

/-- Of two rows, the one ORDER BY date DESC ranks first; ties on date are
unspecified in SQLite and modelled as broken by the larger rowid. -/
def newerRow (a b : Row) : Row :=
  if a.date < b.date ∨ (a.date = b.date ∧ a.rowid < b.rowid) then b else a

/-- SELECT ... WHERE key_hash = ? ORDER BY date DESC LIMIT 1. -/
def selectLatest (t : List Row) (kh : String) : Option Row :=
  (rowsFor t kh).foldl
    (fun acc r =>
      match acc with
      | Option.none => Option.some r
      | Option.some a => Option.some (newerRow a r))
    Option.none

/-- SELECT ... WHERE key_hash = ? AND date <= ? ORDER BY date DESC LIMIT 1. -/
def selectAsOf (t : List Row) (kh : String) (d : Nat) : Option Row :=
  selectLatest (t.filter (fun r => decide (r.date ≤ d))) kh

/-- save_memory: hash the key and the pickled value, read the most recent
stored value hash for the key from the durable table, and unless it equals
the new value hash, store into memory_store and enqueue
(key, key_hash, val, val_hash, date, history); otherwise do nothing
(the printed dedup skip).  The date defaults to the current instant, passed
here explicitly by the caller. -/
def save_memory (khash : String → String) (vhash : PyVal → String) (s : HState)
    (key : String) (val : PyVal) (date : Nat) : HState :=
  let key_hash := khash key
  let val_hash := vhash val
  let last := (selectLatest s.table key_hash).map Row.value_hash
  if last = Option.none ∨ last ≠ Option.some val_hash then
    { s with memory_store := assocSet s.memory_store key_hash val,
             write_queue := s.write_queue ++ [⟨key, key_hash, val, val_hash, date, s.history⟩] }
  else s

/-- One iteration of the async_db_writer loop: dequeue an item; when the
item was enqueued with history false, DELETE FROM memory WHERE key_hash
first; INSERT the new timestamped row; commit.  An exception is caught and
printed, the item is consumed without effect, task_done runs either way. -/
def db_writer_step (fault : Bool) (s : HState) : HState :=
  match s.write_queue with
  | [] => s
  | op :: rest =>
    if fault then { s with write_queue := rest }
    else
      let t1 := if op.history then s.table
                else s.table.filter (fun r => decide (r.key_hash ≠ op.key_hash))
      { s with write_queue := rest,
               table := t1 ++ [⟨s.next_id, op.key_hash, op.date, op.val_hash, op.val⟩],
               next_id := s.next_id + 1 }

/-- Iterated async_db_writer loop, fuel iterations. -/
def db_writer_run : Nat → List Bool → HState → HState
  | 0, _, s => s
  | Nat.succ n, faults, s => db_writer_run n faults.tail (db_writer_step (faults.headD false) s)

/-- Pure application of one queued item to (table, next_id). -/
def happlyOp (p : List Row × Nat) (op : QOp) : List Row × Nat :=
  let t1 := if op.history then p.fst
            else p.fst.filter (fun r => decide (r.key_hash ≠ op.key_hash))
  (t1 ++ [⟨p.snd, op.key_hash, op.date, op.val_hash, op.val⟩], p.snd + 1)

/-- Application of a list of queued items in arrival order. -/
def happlyOps (ops : List QOp) (p : List Row × Nat) : List Row × Nat :=
  ops.foldl happlyOp p

/-- flush of sqlite_memory2 returns exactly when it observes the
write_queue empty. -/
def hflush_drained (s : HState) : Bool :=
  s.write_queue.isEmpty

/-- load_memory(key, defval, date): with no date, the memory_store cache is
consulted first and a durable hit repopulates it; with a date, the cache is
bypassed entirely and the most recent row with date at or before the given
instant is fetched, without touching the cache. -/
def load_memory (khash : String → String) (s : HState) (key : String) (defval : PyVal)
    (date : Option Nat) : PyVal × HState :=
  let key_hash := khash key
  match date with
  | Option.none =>
    match assocLookup s.memory_store key_hash with
    | Option.some v => (v, s)
    | Option.none =>
      match selectLatest s.table key_hash with
      | Option.some r =>
        (r.value, { s with memory_store := assocSet s.memory_store key_hash r.value })
      | Option.none => (defval, s)
  | Option.some d =>
    match selectAsOf s.table key_hash d with
    | Option.some r => (r.value, s)
    | Option.none => (defval, s)

end Sqlite2

/-- A concrete injective encoding of values standing in for the sha256
content hash in concrete instances; every theorem is quantified over the
value-hash function. -/
def pvEnc : PyVal → String
  | PyVal.none => "n"
  | PyVal.str s => "s" ++ s
  | PyVal.int n => "i" ++ toString n

/-- A non-history store whose durable table already holds one row for key
"k" with value "b": the stale-table scenario for the replace-semantics
counterexample. -/
def cexState5 : Sqlite2.HState :=
  { memory_store := []
    write_queue := []
    table := [⟨0, "k", 0, pvEnc (PyVal.str "b"), PyVal.str "b"⟩]
    next_id := 1
    history := false }

/-- A fresh history-mode store with an empty durable table. -/
def cexState6 : Sqlite2.HState :=
  { memory_store := []
    write_queue := []
    table := []
    next_id := 0
    history := true }

/-- A fresh non-history store with an empty durable table. -/
def freshH : Sqlite2.HState :=
  { memory_store := []
    write_queue := []
    table := []
    next_id := 0
    history := false }

/-- A concrete history-mode store with one cached key and one durable row,
used to instantiate the dated-load frame theorem. -/
def datedH : Sqlite2.HState :=
  { memory_store := [("k", PyVal.str "a")]
    write_queue := []
    table := [⟨0, "k", 5, pvEnc (PyVal.str "b"), PyVal.str "b"⟩]
    next_id := 1
    history := true }

end Pmem

namespace Pmem

lemma assocLookup_assocSet (m : List (String × PyVal)) (k : String) (v : PyVal) :
    assocLookup (assocSet m k v) k = Option.some v := by
  induction m with
  | nil => simp [assocSet, assocLookup]
  | cons p rest ih =>
    by_cases h : p.fst = k
    · simp [assocSet, h, assocLookup]
    · simp [assocSet, h, assocLookup, ih]

lemma assocLookup_assocSet_ne (m : List (String × PyVal)) (k k' : String) (v : PyVal)
    (h : k ≠ k') : assocLookup (assocSet m k v) k' = assocLookup m k' := by
  induction m with
  | nil => simp [assocSet, assocLookup, h]
  | cons p rest ih =>
    by_cases hp : p.fst = k
    · simp [assocSet, hp, assocLookup, h, hp.symm ▸ h]
    · simp [assocSet, hp, assocLookup, ih]

lemma assocRemoveAll_cons (p : String × PyVal) (rest : List (String × PyVal)) (k : String) :
    assocRemoveAll (p :: rest) k
      = if p.fst = k then assocRemoveAll rest k else p :: assocRemoveAll rest k := by
  by_cases h : p.fst = k <;> simp [assocRemoveAll, List.filter_cons, h]

lemma assocLookup_assocRemoveAll_self (m : List (String × PyVal)) (k : String) :
    assocLookup (assocRemoveAll m k) k = Option.none := by
  induction m with
  | nil => simp [assocRemoveAll, assocLookup]
  | cons p rest ih =>
    rw [assocRemoveAll_cons]
    by_cases h : p.fst = k
    · simpa [h] using ih
    · simpa [h, assocLookup] using ih

lemma assocLookup_assocRemoveAll_ne (m : List (String × PyVal)) (k k' : String)
    (h : k ≠ k') : assocLookup (assocRemoveAll m k) k' = assocLookup m k' := by
  induction m with
  | nil => simp [assocRemoveAll, assocLookup]
  | cons p rest ih =>
    rw [assocRemoveAll_cons]
    by_cases hp : p.fst = k
    · have hpk : ¬ p.fst = k' := by rw [hp]; exact h
      rw [if_pos hp, ih]
      simp [assocLookup, hpk]
    · rw [if_neg hp]
      by_cases hq : p.fst = k'
      · simp [assocLookup, hq]
      · simp [assocLookup, hq, ih]

lemma not_mem_filter_ne_self (l : List String) (k : String) :
    k ∉ l.filter (fun x => decide (x ≠ k)) := by
  intro h
  have := (List.mem_filter.mp h).2
  simp at this

lemma save_sync_memory_store (hash : String → String) (s : SyncState) (key : String)
    (val : PyVal) :
    (save_sync hash s key val).memory_store = assocSet s.memory_store (hash key) val := by
  simp only [save_sync]
  split <;> rfl

lemma save_sync_deleted_keys (hash : String → String) (s : SyncState) (key : String)
    (val : PyVal) :
    (save_sync hash s key val).deleted_keys
      = s.deleted_keys.filter (fun x => decide (x ≠ hash key)) := by
  simp only [save_sync]
  split <;> rfl

/-- Claim C1.  Read-your-writes: a save of (key, v) immediately followed by a load
of the same key on the same store instance returns v, before any background
worker activity, both for the threaded save_sync/load_sync pair and for the
asyncio save/load pair. -/
theorem read_your_writes (hash : String → String) (s : SyncState) (a : AsyncState)
    (key : String) (v d1 d2 : PyVal) :
    (load_sync hash (save_sync hash s key v) key d1).fst = v ∧
    (load hash (save hash a key v) key d2).fst = v := by
  constructor
  · have hmem : hash key ∉ (save_sync hash s key v).deleted_keys := by
      rw [save_sync_deleted_keys]
      exact not_mem_filter_ne_self _ _
    have hms : assocLookup (save_sync hash s key v).memory_store (hash key)
        = Option.some v := by
      rw [save_sync_memory_store]
      exact assocLookup_assocSet _ _ _
    unfold load_sync load_sync_core
    simp only [if_neg hmem, hms]
  · unfold load save
    simp only [assocLookup_assocSet]

lemma delete_sync_deleted_keys (hash : String → String) (s : SyncState) (key : String) :
    (delete_sync hash s key).deleted_keys
      = if hash key ∈ s.deleted_keys then s.deleted_keys else hash key :: s.deleted_keys := by
  simp only [delete_sync]
  split <;> split <;> rfl

lemma mem_delete_sync_deleted_keys (hash : String → String) (s : SyncState) (key : String) :
    hash key ∈ (delete_sync hash s key).deleted_keys := by
  rw [delete_sync_deleted_keys]
  by_cases h : hash key ∈ s.deleted_keys
  · rwa [if_pos h]
  · rw [if_neg h]
    exact List.mem_cons_self _ _

lemma load_sync_core_deleted_keys (hash : String → String) (s : SyncState) (key : String) :
    (load_sync_core hash s key).snd.deleted_keys = s.deleted_keys := by
  simp only [load_sync_core]
  by_cases h : hash key ∈ s.deleted_keys
  · rw [if_pos h]
  · rw [if_neg h]
    cases hm : assocLookup s.memory_store (hash key) with
    | none =>
      cases hd : assocLookup s.db (hash key) with
      | none => rfl
      | some v => rfl
    | some v => rfl

lemma load_sync_snd_deleted_keys (hash : String → String) (s : SyncState) (key : String)
    (d : PyVal) : (load_sync hash s key d).snd.deleted_keys = s.deleted_keys := by
  unfold load_sync
  have hc := load_sync_core_deleted_keys hash s key
  cases hp : load_sync_core hash s key with
  | mk r t =>
    rw [hp] at hc
    cases r <;> simpa using hc

lemma load_sync_of_deleted (hash : String → String) (s : SyncState) (key : String)
    (d : PyVal) (h : hash key ∈ s.deleted_keys) :
    (load_sync hash s key d).fst = d := by
  simp only [load_sync, load_sync_core]
  rw [if_pos h]

lemma load_seq_deleted_keys (hash : String → String) (ks : List (String × PyVal))
    (s : SyncState) : (load_seq hash s ks).deleted_keys = s.deleted_keys := by
  induction ks generalizing s with
  | nil => rfl
  | cons kd rest ih =>
    unfold load_seq at ih ⊢
    rw [List.foldl_cons, ih, load_sync_snd_deleted_keys]

/-- Claim C4.  Delete visibility (tombstone invariant): once delete_sync of key
returns, load_sync of that key yields the caller-supplied default, even
though the durable delete is still queued; and the invariant survives any
sequence of intermediate load_sync calls (of any keys), since loads never
touch the tombstone set. -/
theorem delete_visibility (hash : String → String) (s : SyncState) (key : String)
    (d : PyVal) (ks : List (String × PyVal)) :
    (load_sync hash (delete_sync hash s key) key d).fst = d ∧
    (load_sync hash (load_seq hash (delete_sync hash s key) ks) key d).fst = d := by
  constructor
  · exact load_sync_of_deleted hash _ key d (mem_delete_sync_deleted_keys hash s key)
  · apply load_sync_of_deleted
    rw [load_seq_deleted_keys]
    exact mem_delete_sync_deleted_keys hash s key

/-- Claim C8.  Strict-mode indexed access: when the key is absent (the load core
returns the sentinel), store[key] raises KeyError exactly when the store
was constructed with key_error = true, and yields the Python None value
otherwise; when a value is present, indexing returns it and never raises,
whatever the flag. -/
theorem strict_mode_getitem (hash : String → String) (s : SyncState) (key : String) :
    ((load_sync_core hash s key).fst = Option.none →
      (((getitem hash s key).fst = GetResult.keyErr) ↔ s.key_error = true) ∧
      (s.key_error = false → (getitem hash s key).fst = GetResult.ok PyVal.none)) ∧
    (∀ v : PyVal, (load_sync_core hash s key).fst = Option.some v →
      (getitem hash s key).fst = GetResult.ok v) := by
  constructor
  · intro habs
    unfold getitem
    cases hp : load_sync_core hash s key with
    | mk r t =>
      rw [hp] at habs
      simp only at habs
      subst habs
      constructor
      · cases hk : s.key_error <;> simp [hk]
      · intro hk
        simp [hk]
  · intro v hv
    unfold getitem
    cases hp : load_sync_core hash s key with
    | mk r t =>
      rw [hp] at hv
      simp only at hv
      subst hv
      rfl

/-- Witness for C8 at a concrete store: a missing key raises under
key_error = true and yields None under key_error = false. -/
theorem strict_mode_getitem_witness :
    (getitem idHash (initState true) "missing").fst = GetResult.keyErr ∧
    (getitem idHash (initState false) "missing").fst = GetResult.ok PyVal.none :=
  ⟨((strict_mode_getitem idHash (initState true) "missing").1 (by decide)).1.mpr rfl,
   ((strict_mode_getitem idHash (initState false) "missing").1 (by decide)).2 rfl⟩

/-- Claim C9.  A stored Python None is not absence: after save_sync(key, None),
indexing returns None and never raises KeyError, even under
key_error = true, because getitem probes existence with a fresh sentinel
object that no stored value can be identical to. -/
theorem stored_none_no_keyerror (hash : String → String) (s : SyncState) (key : String) :
    (getitem hash (save_sync hash s key PyVal.none) key).fst = GetResult.ok PyVal.none := by
  have hmem : hash key ∉ (save_sync hash s key PyVal.none).deleted_keys := by
    rw [save_sync_deleted_keys]
    exact not_mem_filter_ne_self _ _
  have hms : assocLookup (save_sync hash s key PyVal.none).memory_store (hash key)
      = Option.some PyVal.none := by
    rw [save_sync_memory_store]
    exact assocLookup_assocSet _ _ _
  unfold getitem load_sync_core
  simp only [if_neg hmem, hms]

lemma keepUnfaulted_nil_faults {α : Type} (ops : List α) : keepUnfaulted [] ops = ops := by
  induction ops with
  | nil => rfl
  | cons op rest ih => simp [keepUnfaulted, ih]

lemma daemon_step_id (f : Bool) (s : SyncState) (hin : s.in_flight = Option.none)
    (hq : s.sync_write_queue = []) : daemon_step f s = s := by
  simp [daemon_step, daemon_take, daemon_apply, hin, hq]

lemma daemon_step_cons (f : Bool) (s : SyncState) (op : WriteOp) (rest : List WriteOp)
    (hin : s.in_flight = Option.none) (hq : s.sync_write_queue = op :: rest) :
    daemon_step f s
      = { s with sync_write_queue := rest, in_flight := Option.none,
                 db := if f then s.db else applyOp s.db op } := by
  simp [daemon_step, daemon_take, daemon_apply, hin, hq]

lemma daemon_loop_nil (fuel : Nat) (faults : List Bool) (s : SyncState)
    (hin : s.in_flight = Option.none) (hq : s.sync_write_queue = []) :
    daemon_loop fuel faults s = s := by
  induction fuel generalizing faults with
  | zero => rfl
  | succ n ih =>
    unfold daemon_loop
    by_cases hr : s.daemon_running = true
    · rw [if_pos hr, daemon_step_id _ _ hin hq]
      exact ih _
    · rw [if_neg hr]

lemma daemon_loop_drain (ops : List WriteOp) (faults : List Bool) (fuel : Nat) (s : SyncState)
    (hq : s.sync_write_queue = ops) (hin : s.in_flight = Option.none)
    (hr : s.daemon_running = true) (hfuel : ops.length ≤ fuel) :
    daemon_loop fuel faults s
      = { s with sync_write_queue := [], in_flight := Option.none,
                 db := applyOps (keepUnfaulted faults ops) s.db } := by
  induction ops generalizing faults fuel s with
  | nil =>
    rw [daemon_loop_nil fuel faults s hin hq]
    cases s
    simp_all [applyOps, keepUnfaulted]
  | cons op rest ih =>
    cases fuel with
    | zero => simp at hfuel
    | succ n =>
      unfold daemon_loop
      rw [if_pos hr, daemon_step_cons _ _ _ _ hin hq]
      have hrec := ih faults.tail n
        { s with sync_write_queue := rest, in_flight := Option.none,
                 db := if faults.headD false = true then s.db else applyOp s.db op }
        rfl rfl hr (Nat.le_of_succ_le_succ hfuel)
      rw [hrec]
      cases faults with
      | nil => simp [keepUnfaulted, applyOps, List.foldl_cons, List.headD]
      | cons f ft => cases f <;> simp [keepUnfaulted, applyOps, List.foldl_cons, List.headD]

lemma assocLookup_applyOps (ops : List WriteOp) (db : List (String × PyVal)) (hk : String) :
    assocLookup (applyOps ops db) hk = lastOpResult ops hk (assocLookup db hk) := by
  induction ops generalizing db with
  | nil => rfl
  | cons op rest ih =>
    cases op with
    | save k v =>
      have h1 : applyOps (WriteOp.save k v :: rest) db = applyOps rest (assocSet db k v) := rfl
      have h2 : lastOpResult (WriteOp.save k v :: rest) hk (assocLookup db hk)
          = lastOpResult rest hk (if k = hk then Option.some v else assocLookup db hk) := rfl
      rw [h1, h2, ih]
      congr 1
      by_cases h : k = hk
      · rw [if_pos h, h, assocLookup_assocSet]
      · rw [if_neg h, assocLookup_assocSet_ne _ _ _ _ h]
    | del k =>
      have h1 : applyOps (WriteOp.del k :: rest) db = applyOps rest (assocRemoveAll db k) := rfl
      have h2 : lastOpResult (WriteOp.del k :: rest) hk (assocLookup db hk)
          = lastOpResult rest hk (if k = hk then Option.none else assocLookup db hk) := rfl
      rw [h1, h2, ih]
      congr 1
      by_cases h : k = hk
      · rw [if_pos h, h, assocLookup_assocRemoveAll_self]
      · rw [if_neg h, assocLookup_assocRemoveAll_ne _ _ _ h]

lemma lastOpResult_append (xs ys : List WriteOp) (hk : String) (d : Option PyVal) :
    lastOpResult (xs ++ ys) hk d = lastOpResult ys hk (lastOpResult xs hk d) := by
  unfold lastOpResult
  rw [List.foldl_append]

lemma queue_full_of_zero (s : SyncState) (h : s.queue_maxsize = 0) :
    queue_full s = false := by
  simp [queue_full, h]

lemma save_sync_of_unbounded (hash : String → String) (s : SyncState) (key : String)
    (val : PyVal) (h : s.queue_maxsize = 0) :
    save_sync hash s key val
      = { s with memory_store := assocSet s.memory_store (hash key) val,
                 deleted_keys := s.deleted_keys.filter (fun x => decide (x ≠ hash key)),
                 sync_write_queue := s.sync_write_queue ++ [WriteOp.save (hash key) val] } := by
  simp only [save_sync]
  rw [if_neg]
  simp [queue_full, h]

lemma async_step_id (f : Bool) (a : AsyncState) (hin : a.in_flight = Option.none)
    (hq : a.write_queue = []) : async_step f a = a := by
  simp [async_step, async_take, async_apply, hin, hq]

lemma async_step_cons (f : Bool) (a : AsyncState) (p : String × PyVal)
    (rest : List (String × PyVal)) (hin : a.in_flight = Option.none)
    (hq : a.write_queue = p :: rest) :
    async_step f a
      = { a with write_queue := rest, in_flight := Option.none,
                 db := if f then a.db else assocSet a.db p.fst p.snd } := by
  simp [async_step, async_take, async_apply, hin, hq]

lemma async_drain_nil (fuel : Nat) (a : AsyncState) (hin : a.in_flight = Option.none)
    (hq : a.write_queue = []) : async_drain fuel [] a = a := by
  induction fuel with
  | zero => rfl
  | succ n ih =>
    show async_drain n [] (async_step false a) = a
    rw [async_step_id false a hin hq]
    exact ih

lemma async_drain_all (ops : List (String × PyVal)) (fuel : Nat) (a : AsyncState)
    (hq : a.write_queue = ops) (hin : a.in_flight = Option.none)
    (hfuel : ops.length ≤ fuel) :
    async_drain fuel [] a
      = { a with write_queue := [], in_flight := Option.none,
                 db := ops.foldl (fun d p => assocSet d p.fst p.snd) a.db } := by
  induction ops generalizing fuel a with
  | nil =>
    rw [async_drain_nil fuel a hin hq]
    cases a
    simp_all
  | cons p rest ih =>
    cases fuel with
    | zero => simp at hfuel
    | succ n =>
      show async_drain n [] (async_step false a) = _
      rw [async_step_cons false a p rest hin hq]
      have hrec := ih n
        { a with write_queue := rest, in_flight := Option.none,
                 db := if false then a.db else assocSet a.db p.fst p.snd }
        rfl rfl (Nat.le_of_succ_le_succ hfuel)
      rw [hrec]
      simp [List.foldl_cons]

lemma db_writer_step_cons (f : Bool) (s : Sqlite2.HState) (op : Sqlite2.QOp)
    (rest : List Sqlite2.QOp) (hq : s.write_queue = op :: rest) :
    Sqlite2.db_writer_step f s
      = { s with write_queue := rest,
                 table := if f then s.table else (Sqlite2.happlyOp (s.table, s.next_id) op).fst,
                 next_id := if f then s.next_id
                            else (Sqlite2.happlyOp (s.table, s.next_id) op).snd } := by
  cases f <;> simp [Sqlite2.db_writer_step, hq, Sqlite2.happlyOp]

lemma db_writer_run_nil (fuel : Nat) (faults : List Bool) (s : Sqlite2.HState)
    (hq : s.write_queue = []) : Sqlite2.db_writer_run fuel faults s = s := by
  induction fuel generalizing faults with
  | zero => rfl
  | succ n ih =>
    unfold Sqlite2.db_writer_run
    rw [show Sqlite2.db_writer_step (faults.headD false) s = s from by
      simp [Sqlite2.db_writer_step, hq]]
    exact ih _

lemma db_writer_run_drain (ops : List Sqlite2.QOp) (faults : List Bool) (fuel : Nat)
    (s : Sqlite2.HState) (hq : s.write_queue = ops) (hfuel : ops.length ≤ fuel) :
    Sqlite2.db_writer_run fuel faults s
      = { s with write_queue := [],
                 table := (Sqlite2.happlyOps (keepUnfaulted faults ops) (s.table, s.next_id)).fst,
                 next_id := (Sqlite2.happlyOps (keepUnfaulted faults ops) (s.table, s.next_id)).snd } := by
  induction ops generalizing faults fuel s with
  | nil =>
    rw [db_writer_run_nil fuel faults s hq]
    cases s
    simp_all [Sqlite2.happlyOps, keepUnfaulted]
  | cons op rest ih =>
    cases fuel with
    | zero => simp at hfuel
    | succ n =>
      unfold Sqlite2.db_writer_run
      rw [db_writer_step_cons _ _ _ _ hq]
      have hrec := ih faults.tail n
        { s with write_queue := rest,
                 table := if faults.headD false = true then s.table
                          else (Sqlite2.happlyOp (s.table, s.next_id) op).fst,
                 next_id := if faults.headD false = true then s.next_id
                            else (Sqlite2.happlyOp (s.table, s.next_id) op).snd }
        rfl (Nat.le_of_succ_le_succ hfuel)
      rw [hrec]
      cases faults with
      | nil => simp [keepUnfaulted, Sqlite2.happlyOps, List.foldl_cons, List.headD]
      | cons f ft =>
        cases f <;> simp [keepUnfaulted, Sqlite2.happlyOps, List.foldl_cons, List.headD]

lemma saveFlood_props (n : Nat) (s : SyncState) (h0 : s.queue_maxsize = 0) :
    (saveFlood n s).sync_write_queue.length = s.sync_write_queue.length + n ∧
    (saveFlood n s).db = s.db ∧
    (saveFlood n s).queue_maxsize = 0 := by
  induction n generalizing s with
  | zero => exact ⟨rfl, rfl, h0⟩
  | succ m ih =>
    have hs := save_sync_of_unbounded idHash s "k" (PyVal.int (Int.ofNat m)) h0
    have hmax : (save_sync idHash s "k" (PyVal.int (Int.ofNat m))).queue_maxsize = 0 := by
      rw [hs]
      exact h0
    have h2 := ih (save_sync idHash s "k" (PyVal.int (Int.ofNat m))) hmax
    have hstep : saveFlood (m + 1) s
        = saveFlood m (save_sync idHash s "k" (PyVal.int (Int.ofNat m))) := rfl
    refine ⟨?_, ?_, hstep ▸ h2.2.2⟩
    · rw [hstep, h2.1, hs]
      simp [List.length_append]
      omega
    · rw [hstep, h2.2.1, hs]

/-- Claim C2 counterexample.  The sync_write_queue is constructed with maxsize 0,
which is unbounded: 300 consecutive save_sync calls (well past the claimed
finite capacity in the low hundreds) are all enqueued, none times out, the
direct-write fallback is never taken (the durable table stays empty), and
the queue still reports not-full. -/
theorem bounded_queue_cex :
    (initState false).queue_maxsize = 0 ∧
    (saveFlood 300 (initState false)).sync_write_queue.length = 300 ∧
    (saveFlood 300 (initState false)).db = [] ∧
    queue_full (saveFlood 300 (initState false)) = false := by
  have h := saveFlood_props 300 (initState false) rfl
  refine ⟨rfl, ?_, ?_, queue_full_of_zero _ h.2.2⟩
  · rw [h.1]
    simp [initState]
  · rw [h.2.1]
    rfl

/-- Claim C2 amended.  The MutationQueue is unbounded (maxsize 0), so an enqueue
never blocks, never times out, and the queue-full synchronous fallback
present in save_sync is never reached; the no-drop consequence still holds:
every save is enqueued without touching the durable store, and a full drain
by the worker applies every queued operation in order, leaving each key at
its last enqueued write. -/
theorem unbounded_queue_no_drop (hash : String → String) (s : SyncState) (key : String)
    (val : PyVal) (h0 : s.queue_maxsize = 0) :
    ((save_sync hash s key val).sync_write_queue
        = s.sync_write_queue ++ [WriteOp.save (hash key) val] ∧
      (save_sync hash s key val).db = s.db) ∧
    (∀ (t : SyncState) (fuel : Nat),
        t.in_flight = Option.none → t.daemon_running = true →
        t.sync_write_queue.length ≤ fuel →
          (daemon_loop fuel [] t).sync_write_queue = [] ∧
          (daemon_loop fuel [] t).db = applyOps t.sync_write_queue t.db ∧
          ∀ hk : String,
            assocLookup (applyOps t.sync_write_queue t.db) hk
              = lastOpResult t.sync_write_queue hk (assocLookup t.db hk)) := by
  constructor
  · rw [save_sync_of_unbounded hash s key val h0]
    exact ⟨rfl, rfl⟩
  · intro t fuel hin hr hfuel
    have hd := daemon_loop_drain t.sync_write_queue [] fuel t rfl hin hr hfuel
    rw [hd]
    refine ⟨rfl, ?_, ?_⟩
    · simp [keepUnfaulted_nil_faults]
    · intro hk
      exact assocLookup_applyOps _ _ _

/-- Witness for C2 amended: on a fresh store a save is enqueued and the
durable table is untouched. -/
theorem unbounded_queue_no_drop_witness :
    (save_sync idHash (initState false) "k" (PyVal.str "a")).db = [] :=
  ((unbounded_queue_no_drop idHash (initState false) "k" (PyVal.str "a") rfl).1).2

/-- Claim C3 counterexample.  After one save the daemon dequeues the operation
(queue.get); at that instant the queue is observed empty, so flush_sync
reports drained with no timeout, yet the operation is only in flight: the
durable table does not contain the saved key. -/
theorem flush_sync_in_flight_cex :
    flush_sync_drained (daemon_take (save_sync idHash (initState false) "k" (PyVal.int 5)))
        = true ∧
    (daemon_take (save_sync idHash (initState false) "k" (PyVal.int 5))).in_flight
        = Option.some (WriteOp.save "k" (PyVal.int 5)) ∧
    assocLookup (daemon_take (save_sync idHash (initState false) "k" (PyVal.int 5))).db "k"
        = Option.none := by
  decide

/-- Claim C3 amended.  The threaded flush_sync waits only until the queue is
observed empty (and, on timeout, reports the queue length): it does not
wait for the operation the worker holds in flight.  The asyncio flush
(write_queue.join) is satisfied exactly when nothing is pending and nothing
is in flight.  After the worker fully drains without faults, both flush
conditions hold and the durable store carries every enqueued operation in
order. -/
theorem flush_drain_semantics :
    (∀ t : SyncState, flush_sync_drained t = true ↔ t.sync_write_queue = []) ∧
    (∀ t : SyncState, flush_sync_pending t = t.sync_write_queue.length) ∧
    (∀ a : AsyncState, join_done a = true ↔ (a.write_queue = [] ∧ a.in_flight = Option.none)) ∧
    (∀ (t : SyncState) (fuel : Nat),
        t.in_flight = Option.none → t.daemon_running = true →
        t.sync_write_queue.length ≤ fuel →
          flush_sync_drained (daemon_loop fuel [] t) = true ∧
          (daemon_loop fuel [] t).in_flight = Option.none ∧
          (daemon_loop fuel [] t).db = applyOps t.sync_write_queue t.db) ∧
    (∀ (a : AsyncState) (fuel : Nat),
        a.in_flight = Option.none → a.write_queue.length ≤ fuel →
          join_done (async_drain fuel [] a) = true ∧
          (async_drain fuel [] a).db
            = a.write_queue.foldl (fun d p => assocSet d p.fst p.snd) a.db) := by
  refine ⟨?_, ?_, ?_, ?_, ?_⟩
  · intro t
    cases h : t.sync_write_queue <;> simp [flush_sync_drained, h]
  · intro t
    rfl
  · intro a
    cases hq : a.write_queue <;> cases hi : a.in_flight <;> simp [join_done, hq, hi]
  · intro t fuel hin hr hfuel
    have hd := daemon_loop_drain t.sync_write_queue [] fuel t rfl hin hr hfuel
    rw [hd]
    exact ⟨rfl, rfl, by simp [keepUnfaulted_nil_faults]⟩
  · intro a fuel hin hfuel
    have hd := async_drain_all a.write_queue fuel a rfl hin hfuel
    rw [hd]
    exact ⟨rfl, rfl⟩

/-- Witness for C3 amended: one save, one full worker iteration; flush_sync
observes drained and the durable table carries the write. -/
theorem flush_drain_semantics_witness :
    flush_sync_drained (daemon_loop 1 [] (save_sync idHash (initState false) "k" (PyVal.str "a")))
        = true ∧
    (daemon_loop 1 [] (save_sync idHash (initState false) "k" (PyVal.str "a"))).db
      = applyOps (save_sync idHash (initState false) "k" (PyVal.str "a")).sync_write_queue
          (save_sync idHash (initState false) "k" (PyVal.str "a")).db := by
  have h := flush_drain_semantics.2.2.2.1
    (save_sync idHash (initState false) "k" (PyVal.str "a")) 1 (by decide) (by decide) (by decide)
  exact ⟨h.1, h.2.2⟩

/-- Claim C7.  Worker resilience: the daemon loop stops only on the explicit stop
signal (daemon_running cleared) and otherwise always runs another
iteration; a fault while applying one operation consumes it without effect
but every later unfaulted operation is still applied, in order — for the
threaded _daemon_worker and likewise for the sqlite_memory2
async_db_writer. -/
theorem worker_resilience :
    (∀ (fuel : Nat) (faults : List Bool) (s : SyncState),
        s.daemon_running = false → daemon_loop fuel faults s = s) ∧
    (∀ (n : Nat) (faults : List Bool) (s : SyncState),
        s.daemon_running = true →
          daemon_loop (n + 1) faults s
            = daemon_loop n faults.tail (daemon_step (faults.headD false) s)) ∧
    (∀ (s : SyncState) (fuel : Nat) (faults : List Bool),
        s.in_flight = Option.none → s.daemon_running = true →
        s.sync_write_queue.length ≤ fuel →
          (daemon_loop fuel faults s).sync_write_queue = [] ∧
          (daemon_loop fuel faults s).db
            = applyOps (keepUnfaulted faults s.sync_write_queue) s.db) ∧
    (∀ (h : Sqlite2.HState) (fuel : Nat) (faults : List Bool),
        h.write_queue.length ≤ fuel →
          (Sqlite2.db_writer_run fuel faults h).write_queue = [] ∧
          (Sqlite2.db_writer_run fuel faults h).table
            = (Sqlite2.happlyOps (keepUnfaulted faults h.write_queue)
                (h.table, h.next_id)).fst) := by
  refine ⟨?_, ?_, ?_, ?_⟩
  · intro fuel faults s hstop
    cases fuel <;> simp [daemon_loop, hstop]
  · intro n faults s hrun
    simp [daemon_loop, hrun]
  · intro s fuel faults hin hrun hfuel
    have hd := daemon_loop_drain s.sync_write_queue faults fuel s rfl hin hrun hfuel
    rw [hd]
    exact ⟨rfl, rfl⟩
  · intro h fuel faults hfuel
    have hd := db_writer_run_drain h.write_queue faults fuel h rfl hfuel
    rw [hd]
    exact ⟨rfl, rfl⟩

/-- Witness for C7: two queued saves, a fault on the first; the queue
drains and the second save still reaches the durable table. -/
theorem worker_resilience_witness :
    (daemon_loop 2 [true, false] twoOpState).sync_write_queue = [] ∧
    (daemon_loop 2 [true, false] twoOpState).db
      = applyOps (keepUnfaulted [true, false] twoOpState.sync_write_queue) twoOpState.db :=
  worker_resilience.2.2.1 twoOpState 2 [true, false] rfl rfl (by decide)

lemma save_memory_enqueue (khash : String → String) (vhash : PyVal → String)
    (s : Sqlite2.HState) (key : String) (val : PyVal) (date : Nat)
    (h : (Sqlite2.selectLatest s.table (khash key)).map Sqlite2.Row.value_hash
        ≠ Option.some (vhash val)) :
    Sqlite2.save_memory khash vhash s key val date
      = { s with memory_store := assocSet s.memory_store (khash key) val,
                 write_queue := s.write_queue
                    ++ [⟨key, khash key, val, vhash val, date, s.history⟩] } := by
  simp only [Sqlite2.save_memory]
  rw [if_pos]
  exact Or.inr h

lemma save_memory_skip (khash : String → String) (vhash : PyVal → String)
    (s : Sqlite2.HState) (key : String) (val : PyVal) (date : Nat)
    (h : (Sqlite2.selectLatest s.table (khash key)).map Sqlite2.Row.value_hash
        = Option.some (vhash val)) :
    Sqlite2.save_memory khash vhash s key val date = s := by
  simp only [Sqlite2.save_memory]
  rw [if_neg]
  intro hc
  cases hc with
  | inl h1 =>
    rw [h] at h1
    exact Option.noConfusion h1
  | inr h2 => exact h2 h

lemma rowsFor_append (t1 t2 : List Sqlite2.Row) (kh : String) :
    Sqlite2.rowsFor (t1 ++ t2) kh = Sqlite2.rowsFor t1 kh ++ Sqlite2.rowsFor t2 kh := by
  simp [Sqlite2.rowsFor, List.filter_append]

lemma rowsFor_filter_ne (t : List Sqlite2.Row) (kh : String) :
    Sqlite2.rowsFor (t.filter (fun r => decide (r.key_hash ≠ kh))) kh = [] := by
  induction t with
  | nil => rfl
  | cons r rest ih =>
    by_cases h : r.key_hash = kh <;>
      simp [Sqlite2.rowsFor, List.filter_cons, h]

lemma selectLatest_of_rowsFor_single (t : List Sqlite2.Row) (kh : String)
    (row : Sqlite2.Row) (h : Sqlite2.rowsFor t kh = [row]) :
    Sqlite2.selectLatest t kh = Option.some row := by
  unfold Sqlite2.selectLatest
  rw [h]
  rfl

lemma selectLatest_of_rowsFor_nil (t : List Sqlite2.Row) (kh : String)
    (h : Sqlite2.rowsFor t kh = []) :
    Sqlite2.selectLatest t kh = Option.none := by
  unfold Sqlite2.selectLatest
  rw [h]
  rfl

/-- Claim C5 counterexample.  Non-history mode, the durable table already holds a
row for key "k" with the content hash of "b" (e.g. from an earlier run).
The sequence save("k", "a"); save("k", "b") followed by a full drain leaves
exactly one durable row for "k" — but it holds "a", not "b": the second
save was dedup-skipped against the stale durable row, because the dedup
check reads the durable table, not the queue or the cache. -/
theorem replace_semantics_cex :
    List.map Sqlite2.Row.value
        (Sqlite2.rowsFor
          (Sqlite2.db_writer_run 2 []
            (Sqlite2.save_memory idHash pvEnc
              (Sqlite2.save_memory idHash pvEnc cexState5 "k" (PyVal.str "a") 1)
              "k" (PyVal.str "b") 2)).table "k")
      = [PyVal.str "a"] ∧
    PyVal.str "a" ≠ PyVal.str "b" ∧
    (Sqlite2.db_writer_run 2 []
        (Sqlite2.save_memory idHash pvEnc
          (Sqlite2.save_memory idHash pvEnc cexState5 "k" (PyVal.str "a") 1)
          "k" (PyVal.str "b") 2)).write_queue = [] := by
  decide

/-- Claim C5 amended.  In non-history mode, save(k, v1); save(k, v2); drain
leaves exactly one durable row for k holding v2, provided the most recent
durable row for k at the time of the saves does not already carry the
content hash of v2 (in particular from a store with no rows for k) — the
dedup check consults the durable table, which has not yet seen the queued
v1.  The worker applies delete-before-insert, so a single row results in
every case. -/
theorem replace_semantics_amended (khash : String → String) (vhash : PyVal → String)
    (s : Sqlite2.HState) (k : String) (v1 v2 : PyVal) (d1 d2 : Nat)
    (hh : s.history = false) (hq : s.write_queue = [])
    (hstale : (Sqlite2.selectLatest s.table (khash k)).map Sqlite2.Row.value_hash
        ≠ Option.some (vhash v2)) :
    List.map Sqlite2.Row.value
        (Sqlite2.rowsFor
          (Sqlite2.db_writer_run 2 []
            (Sqlite2.save_memory khash vhash
              (Sqlite2.save_memory khash vhash s k v1 d1) k v2 d2)).table (khash k))
      = [v2] ∧
    (Sqlite2.db_writer_run 2 []
        (Sqlite2.save_memory khash vhash
          (Sqlite2.save_memory khash vhash s k v1 d1) k v2 d2)).write_queue = [] := by
  by_cases hA : (Sqlite2.selectLatest s.table (khash k)).map Sqlite2.Row.value_hash
      = Option.some (vhash v1)
  · rw [save_memory_skip khash vhash s k v1 d1 hA,
        save_memory_enqueue khash vhash s k v2 d2 hstale, hq]
    simp only [List.nil_append]
    constructor
    · simp only [Sqlite2.db_writer_run, Sqlite2.db_writer_step, List.headD, List.tail,
        hh, if_false, Bool.false_eq_true]
      rw [rowsFor_append, rowsFor_filter_ne]
      simp [Sqlite2.rowsFor, List.filter]
    · simp [Sqlite2.db_writer_run, Sqlite2.db_writer_step, hh]
  · rw [save_memory_enqueue khash vhash s k v1 d1 hA]
    rw [save_memory_enqueue khash vhash
      { memory_store := assocSet s.memory_store (khash k) v1,
        write_queue := s.write_queue ++ [⟨k, khash k, v1, vhash v1, d1, s.history⟩],
        table := s.table, next_id := s.next_id, history := s.history }
      k v2 d2 hstale, hq]
    simp only [List.nil_append, List.singleton_append]
    constructor
    · simp only [Sqlite2.db_writer_run, Sqlite2.db_writer_step, List.headD, List.tail,
        hh, if_false, Bool.false_eq_true, List.cons_append, List.nil_append]
      rw [rowsFor_append, rowsFor_filter_ne]
      simp [Sqlite2.rowsFor, List.filter]
    · simp [Sqlite2.db_writer_run, Sqlite2.db_writer_step, hh, List.singleton_append]

/-- Witness for C5 amended: from a fresh empty store, two saves of distinct
values followed by a drain leave one row holding the second value. -/
theorem replace_semantics_amended_witness :
    List.map Sqlite2.Row.value
        (Sqlite2.rowsFor
          (Sqlite2.db_writer_run 2 []
            (Sqlite2.save_memory idHash pvEnc
              (Sqlite2.save_memory idHash pvEnc freshH "k" (PyVal.str "a") 1)
              "k" (PyVal.str "b") 2)).table (idHash "k"))
      = [PyVal.str "b"] :=
  (replace_semantics_amended idHash pvEnc freshH "k" (PyVal.str "a") (PyVal.str "b") 1 2
    rfl rfl (by decide)).1

/-- Claim C6 counterexample.  History mode, fresh store: save(k, v); save(k, v)
with identical content, both before the worker runs.  The dedup check reads
the durable table, which is still empty at the second save, so both saves
are enqueued and the drain inserts two identical durable rows — not one. -/
theorem dedup_skip_cex :
    List.map Sqlite2.Row.value
        (Sqlite2.rowsFor
          (Sqlite2.db_writer_run 2 []
            (Sqlite2.save_memory idHash pvEnc
              (Sqlite2.save_memory idHash pvEnc cexState6 "k" (PyVal.str "a") 1)
              "k" (PyVal.str "a") 2)).table "k")
      = [PyVal.str "a", PyVal.str "a"] := by
  decide

/-- Claim C6 amended.  The dedup skip compares the new content hash against the
most recent durable row: a save whose value hash equals that row's hash is
a no-op.  Hence in history mode an identical re-save produces a single
durable row only when the first save has already been applied (save; drain;
save): the second save is then skipped and exactly one row exists.  When
both saves precede the worker, both are enqueued (the counterexample). -/
theorem dedup_skip_amended (khash : String → String) (vhash : PyVal → String)
    (s : Sqlite2.HState) (k : String) (v : PyVal) (d1 d2 : Nat)
    (hh : s.history = true) (hq : s.write_queue = [])
    (hfresh : Sqlite2.rowsFor s.table (khash k) = []) :
    (∀ (t : Sqlite2.HState) (key : String) (val : PyVal) (dd : Nat),
        (Sqlite2.selectLatest t.table (khash key)).map Sqlite2.Row.value_hash
            = Option.some (vhash val) →
          Sqlite2.save_memory khash vhash t key val dd = t) ∧
    Sqlite2.save_memory khash vhash
        (Sqlite2.db_writer_run 1 [] (Sqlite2.save_memory khash vhash s k v d1)) k v d2
      = Sqlite2.db_writer_run 1 [] (Sqlite2.save_memory khash vhash s k v d1) ∧
    List.map Sqlite2.Row.value
        (Sqlite2.rowsFor
          (Sqlite2.db_writer_run 1 [] (Sqlite2.save_memory khash vhash s k v d1)).table
          (khash k))
      = [v] := by
  have hlast : (Sqlite2.selectLatest s.table (khash k)).map Sqlite2.Row.value_hash
      ≠ Option.some (vhash v) := by
    rw [selectLatest_of_rowsFor_nil s.table (khash k) hfresh]
    simp
  have e1 := save_memory_enqueue khash vhash s k v d1 hlast
  have hrow : Sqlite2.rowsFor
      (Sqlite2.db_writer_run 1 [] (Sqlite2.save_memory khash vhash s k v d1)).table (khash k)
      = [⟨s.next_id, khash k, d1, vhash v, v⟩] := by
    rw [e1, hq]
    simp only [List.nil_append]
    simp [Sqlite2.db_writer_run, Sqlite2.db_writer_step, hh]
    rw [rowsFor_append, hfresh]
    simp [Sqlite2.rowsFor, List.filter]
  refine ⟨?_, ?_, ?_⟩
  · intro t key val dd hskip
    exact save_memory_skip khash vhash t key val dd hskip
  · apply save_memory_skip
    rw [selectLatest_of_rowsFor_single _ _ _ hrow]
    rfl
  · rw [hrow]
    rfl

/-- Witness for C6 amended: fresh history store, save; drain; identical
save — one durable row remains. -/
theorem dedup_skip_amended_witness :
    List.map Sqlite2.Row.value
        (Sqlite2.rowsFor
          (Sqlite2.db_writer_run 1 []
            (Sqlite2.save_memory idHash pvEnc cexState6 "k" (PyVal.str "a") 1)).table
          (idHash "k"))
      = [PyVal.str "a"] :=
  (dedup_skip_amended idHash pvEnc cexState6 "k" (PyVal.str "a") 1 2 rfl rfl rfl).2.2

/-- Claim C10.  A dated load bypasses and leaves the cache untouched: it returns
exactly the durable row with the greatest date at or before the given
instant (or the default), with the state unchanged; an undated load
consults the cache first and, on a cache miss with a durable hit, inserts
the fetched value into the cache. -/
theorem dated_load_frame (khash : String → String) (s : Sqlite2.HState) (key : String)
    (d : Nat) (defval : PyVal) :
    (Sqlite2.load_memory khash s key defval (Option.some d)).snd = s ∧
    (Sqlite2.load_memory khash s key defval (Option.some d)).fst
      = (match Sqlite2.selectAsOf s.table (khash key) d with
         | Option.some r => r.value
         | Option.none => defval) ∧
    (∀ v : PyVal, assocLookup s.memory_store (khash key) = Option.some v →
        Sqlite2.load_memory khash s key defval Option.none = (v, s)) ∧
    (assocLookup s.memory_store (khash key) = Option.none →
      ∀ r : Sqlite2.Row, Sqlite2.selectLatest s.table (khash key) = Option.some r →
        Sqlite2.load_memory khash s key defval Option.none
          = (r.value, { s with memory_store := assocSet s.memory_store (khash key) r.value })) := by
  refine ⟨?_, ?_, ?_, ?_⟩
  · cases h : Sqlite2.selectAsOf s.table (khash key) d <;>
      simp [Sqlite2.load_memory, h]
  · cases h : Sqlite2.selectAsOf s.table (khash key) d <;>
      simp [Sqlite2.load_memory, h]
  · intro v hv
    simp [Sqlite2.load_memory, hv]
  · intro hnone r hr
    simp [Sqlite2.load_memory, hnone, hr]

/-- Witness for C10: on a concrete store with one cached key and one
durable row, a dated load leaves the state unchanged and an undated load
serves the cache. -/
theorem dated_load_frame_witness :
    (Sqlite2.load_memory idHash datedH "k" PyVal.none (Option.some 9)).snd = datedH ∧
    Sqlite2.load_memory idHash datedH "k" PyVal.none Option.none = (PyVal.str "a", datedH) :=
  ⟨(dated_load_frame idHash datedH "k" 9 PyVal.none).1,
   (dated_load_frame idHash datedH "k" 9 PyVal.none).2.2.1 (PyVal.str "a") (by decide)⟩
